import Mathlib

/-!
Verification of the NoteDiscovery frontend core (src/frontend/app.js):
the note-index / wikilink-resolution engine, the folder-tree builder with
cached note counts, the per-note undo/redo history manager, the unified
tag/text filter engine, and the markdown render pipeline cache.

The JavaScript source is shallowly embedded: JS strings are Lean `String`
(reasoned about through their `List Char` data), JS `Map`s used as
existence-only sets are key lists, the media map is an association list
with first-write-wins insertion, and JS objects used as ordered
string-keyed dictionaries are association lists.  `String.toLowerCase`
is modelled character-wise with `Char.toLower` (exact on ASCII, which is
all the engine's own syntax uses).  External collaborators (the `marked`
markdown converter, DOM post-processing, URI encoding) are parameters.
-/

namespace NoteDiscovery

/-- Model of JS `String.prototype.toLowerCase` (character-wise). -/
def jsToLower (s : String) : String := ⟨s.data.map Char.toLower⟩

/-- Model of `s.replace(/\.md$/i, '')`: strips a final case-insensitive
`.md` suffix, otherwise returns the string unchanged. -/
def stripMd (s : String) : String :=
  if (s.data.map Char.toLower).drop (s.data.length - 3) = ['.', 'm', 'd'] then
    ⟨s.data.take (s.data.length - 3)⟩
  else s

/-- Split a character list at every occurrence of `sep`, JS
`String.prototype.split` style (single-character separator). -/
def splitCharList (sep : Char) : List Char → List (List Char)
  | [] => [[]]
  | c :: rest =>
    let r := splitCharList sep rest
    if c == sep then [] :: r
    else
      match r with
      | [] => [[c]]
      | h :: t => (c :: h) :: t

/-- Model of JS `s.split(sep)` for a single-character separator. -/
def jsSplit (sep : Char) (s : String) : List String :=
  (splitCharList sep s.data).map (fun l => ⟨l⟩)

/-- Model of JS `parts.join(sep)` for a single-character separator. -/
def jsJoin (sep : Char) (parts : List String) : String :=
  ⟨((parts.map String.data).intersperse [sep]).flatten⟩

/-- Model of JS `String.prototype.trim` (character-wise whitespace). -/
def jsTrim (s : String) : String :=
  ⟨((s.data.dropWhile Char.isWhitespace).reverse.dropWhile Char.isWhitespace).reverse⟩

/-- Model of `path.split('/').pop()`: the last `/`-separated segment. -/
def lastSegment (p : String) : String := (jsSplit '/' p).getLastD ""

/-- A note or media entry as delivered by the backend listing:
`{path, name, folder, type, tags}` (the fields the engine reads). -/
structure Entry where
  path : String
  name : String
  folder : String
  type : String
  tags : List String
deriving DecidableEq, Repr

/-- The six lookup structures of `buildNoteLookupMaps`.  The five note
maps are existence-only, so they are modelled by their key lists; the
media map carries paths, so it is an association list. -/
structure NoteLookup where
  byPath : List String
  byPathLower : List String
  byName : List String
  byNameLower : List String
  byEndPath : List String
  mediaLookup : List (String × String)
deriving DecidableEq, Repr

def emptyNoteLookup : NoteLookup := ⟨[], [], [], [], [], []⟩

/-- One iteration of the `for (const note of this.notes)` loop in
`buildNoteLookupMaps`. -/
def processEntry (acc : NoteLookup) (e : Entry) : NoteLookup :=
  if e.type != "note" then
    let filenameWithExt := jsToLower (lastSegment e.path)
    if (acc.mediaLookup.find? (fun p => p.1 == filenameWithExt)).isSome then acc
    else { acc with mediaLookup := acc.mediaLookup ++ [(filenameWithExt, e.path)] }
  else
    let path := e.path
    let pathLower := jsToLower path
    let name := e.name
    let nameLower := jsToLower name
    let nameWithoutMd := stripMd name
    let nameWithoutMdLower := jsToLower nameWithoutMd
    { acc with
      byPath := acc.byPath ++ [path, stripMd path]
      byPathLower := acc.byPathLower ++ [pathLower, stripMd pathLower]
      byName := acc.byName ++ [name, nameWithoutMd]
      byNameLower := acc.byNameLower ++ [nameLower, nameWithoutMdLower]
      byEndPath := acc.byEndPath ++ ["/" ++ nameWithoutMdLower, "/" ++ nameLower] }

def buildLoop (acc : NoteLookup) : List Entry → NoteLookup
  | [] => acc
  | e :: rest => buildLoop (processEntry acc e) rest

/-- `buildNoteLookupMaps`: clears all six structures and repopulates them
from the entry list, in listing order. -/
def buildNoteLookupMaps (notes : List Entry) : NoteLookup :=
  buildLoop emptyNoteLookup notes

/-- `wikiLinkExists(linkTarget)`: the eight-way membership check. -/
def wikiLinkExists (idx : NoteLookup) (linkTarget : String) : Bool :=
  let targetLower := jsToLower linkTarget
  idx.byPath.contains linkTarget
  || idx.byPath.contains (linkTarget ++ ".md")
  || idx.byPathLower.contains targetLower
  || idx.byPathLower.contains (targetLower ++ ".md")
  || idx.byName.contains linkTarget
  || idx.byNameLower.contains targetLower
  || idx.byEndPath.contains ("/" ++ targetLower)
  || idx.byEndPath.contains ("/" ++ targetLower ++ ".md")

/-- `resolveMediaWikilink(mediaName)`: case-insensitive lookup by
filename with extension; `none` models the `null` miss. -/
def resolveMediaWikilink (idx : NoteLookup) (mediaName : String) : Option String :=
  let nameLower := jsToLower mediaName
  (idx.mediaLookup.find? (fun p => p.1 == nameLower)).map (fun p => p.2)

/-- Lowercasing a basic-latin lowered character changes nothing. -/
theorem char_toLower_idem (c : Char) : c.toLower.toLower = c.toLower := by
  have key : ∀ n : Nat, 65 ≤ n → n ≤ 90 →
      (Char.ofNat (n + 32)).toLower = Char.ofNat (n + 32) := by
    intro n h1 h2; interval_cases n <;> decide
  by_cases h : c.toNat ≥ 65 ∧ c.toNat ≤ 90
  · have e1 : c.toLower = Char.ofNat (c.toNat + 32) := by
      unfold Char.toLower; exact if_pos h
    rw [e1, key c.toNat h.1 h.2]
  · have e1 : c.toLower = c := by
      unfold Char.toLower; exact if_neg h
    rw [e1, e1]

/-- `jsToLower` is idempotent. -/
theorem jsToLower_idem (s : String) : jsToLower (jsToLower s) = jsToLower s := by
  unfold jsToLower
  cases s with
  | mk d =>
    simp only [List.map_map]
    congr 1
    exact List.map_congr_left (fun c _ => char_toLower_idem c)

/-- Stripping the canonical `.md` suffix drops exactly those three
characters. -/
theorem stripMd_append_md (d0 : List Char) :
    stripMd ⟨d0 ++ ['.', 'm', 'd']⟩ = ⟨d0⟩ := by
  have hml : ['.', 'm', 'd'].map Char.toLower = ['.', 'm', 'd'] := by decide
  have hcond : ((d0 ++ ['.', 'm', 'd']).map Char.toLower).drop
      ((d0 ++ ['.', 'm', 'd']).length - 3) = ['.', 'm', 'd'] := by
    rw [List.map_append, hml]
    have hlen : (d0 ++ ['.', 'm', 'd']).length - 3 = (d0.map Char.toLower).length := by
      simp
    rw [hlen, List.drop_left]
  unfold stripMd
  rw [if_pos hcond]
  congr 1
  have hlen2 : (d0 ++ ['.', 'm', 'd']).length - 3 = d0.length := by simp
  rw [hlen2, List.take_left]

/-- Lowering the whole path commutes with `jsToLower` on the prefix when
the path carries the canonical `.md` suffix. -/
theorem jsToLower_append_md (d0 : List Char) :
    jsToLower ⟨d0 ++ ['.', 'm', 'd']⟩ = ⟨d0.map Char.toLower ++ ['.', 'm', 'd']⟩ := by
  unfold jsToLower
  congr 1
  simp only [List.map_append]
  congr 1

/-- For a path with the canonical suffix, lowercasing and suffix
stripping commute. -/
theorem jsToLower_stripMd_comm (d0 : List Char) :
    jsToLower (stripMd ⟨d0 ++ ['.', 'm', 'd']⟩) = stripMd (jsToLower ⟨d0 ++ ['.', 'm', 'd']⟩) := by
  rw [stripMd_append_md, jsToLower_append_md, stripMd_append_md]
  rfl

/-- `processEntry` never removes keys from the five note maps. -/
theorem processEntry_subset (acc : NoteLookup) (e : Entry) :
    acc.byPath ⊆ (processEntry acc e).byPath
  ∧ acc.byPathLower ⊆ (processEntry acc e).byPathLower
  ∧ acc.byName ⊆ (processEntry acc e).byName
  ∧ acc.byNameLower ⊆ (processEntry acc e).byNameLower
  ∧ acc.byEndPath ⊆ (processEntry acc e).byEndPath := by
  unfold processEntry
  split
  · dsimp only
    split
    · exact ⟨fun _ hx => hx, fun _ hx => hx, fun _ hx => hx, fun _ hx => hx, fun _ hx => hx⟩
    · exact ⟨fun _ hx => hx, fun _ hx => hx, fun _ hx => hx, fun _ hx => hx, fun _ hx => hx⟩
  · exact ⟨fun _ hx => List.mem_append_left _ hx, fun _ hx => List.mem_append_left _ hx,
      fun _ hx => List.mem_append_left _ hx, fun _ hx => List.mem_append_left _ hx,
      fun _ hx => List.mem_append_left _ hx⟩

/-- `buildLoop` never removes keys from the five note maps. -/
theorem buildLoop_subset (l : List Entry) (acc : NoteLookup) :
    acc.byPath ⊆ (buildLoop acc l).byPath
  ∧ acc.byPathLower ⊆ (buildLoop acc l).byPathLower
  ∧ acc.byName ⊆ (buildLoop acc l).byName
  ∧ acc.byNameLower ⊆ (buildLoop acc l).byNameLower
  ∧ acc.byEndPath ⊆ (buildLoop acc l).byEndPath := by
  induction l generalizing acc with
  | nil => exact ⟨fun _ hx => hx, fun _ hx => hx, fun _ hx => hx, fun _ hx => hx, fun _ hx => hx⟩
  | cons e rest ih =>
    have h1 := processEntry_subset acc e
    have h2 := ih (processEntry acc e)
    exact ⟨h1.1.trans h2.1, h1.2.1.trans h2.2.1, h1.2.2.1.trans h2.2.2.1,
      h1.2.2.2.1.trans h2.2.2.2.1, h1.2.2.2.2.trans h2.2.2.2.2⟩

/-- Every note entry of the input registers all its lookup-key variants
in the built maps. -/
theorem mem_buildLoop (l : List Entry) (acc : NoteLookup) (e : Entry)
    (he : e ∈ l) (ht : e.type = "note") :
    e.path ∈ (buildLoop acc l).byPath
  ∧ stripMd e.path ∈ (buildLoop acc l).byPath
  ∧ jsToLower e.path ∈ (buildLoop acc l).byPathLower
  ∧ stripMd (jsToLower e.path) ∈ (buildLoop acc l).byPathLower
  ∧ e.name ∈ (buildLoop acc l).byName
  ∧ stripMd e.name ∈ (buildLoop acc l).byName
  ∧ jsToLower e.name ∈ (buildLoop acc l).byNameLower
  ∧ jsToLower (stripMd e.name) ∈ (buildLoop acc l).byNameLower
  ∧ ("/" ++ jsToLower (stripMd e.name)) ∈ (buildLoop acc l).byEndPath
  ∧ ("/" ++ jsToLower e.name) ∈ (buildLoop acc l).byEndPath := by
  induction l generalizing acc with
  | nil => cases he
  | cons f rest ih =>
    rcases List.mem_cons.mp he with rfl | hmem
    · have hsub := buildLoop_subset rest (processEntry acc e)
      have hne : (e.type != "note") = false := by simp [ht]
      have hkeys : e.path ∈ (processEntry acc e).byPath
          ∧ stripMd e.path ∈ (processEntry acc e).byPath
          ∧ jsToLower e.path ∈ (processEntry acc e).byPathLower
          ∧ stripMd (jsToLower e.path) ∈ (processEntry acc e).byPathLower
          ∧ e.name ∈ (processEntry acc e).byName
          ∧ stripMd e.name ∈ (processEntry acc e).byName
          ∧ jsToLower e.name ∈ (processEntry acc e).byNameLower
          ∧ jsToLower (stripMd e.name) ∈ (processEntry acc e).byNameLower
          ∧ ("/" ++ jsToLower (stripMd e.name)) ∈ (processEntry acc e).byEndPath
          ∧ ("/" ++ jsToLower e.name) ∈ (processEntry acc e).byEndPath := by
        unfold processEntry
        rw [hne]
        simp
      unfold buildLoop
      exact ⟨hsub.1 hkeys.1, hsub.1 hkeys.2.1, hsub.2.1 hkeys.2.2.1,
        hsub.2.1 hkeys.2.2.2.1, hsub.2.2.1 hkeys.2.2.2.2.1,
        hsub.2.2.1 hkeys.2.2.2.2.2.1, hsub.2.2.2.1 hkeys.2.2.2.2.2.2.1,
        hsub.2.2.2.1 hkeys.2.2.2.2.2.2.2.1,
        hsub.2.2.2.2 hkeys.2.2.2.2.2.2.2.2.1,
        hsub.2.2.2.2 hkeys.2.2.2.2.2.2.2.2.2⟩
    · unfold buildLoop
      exact ih (processEntry acc f) hmem

/-- C1 (amended): for every indexed note whose path carries the
canonical `.md` suffix, `wikiLinkExists` accepts the exact path, the
suffix-stripped path, every case variant of either, and the bare
lowercase stem of the note's name (without a leading slash). -/
theorem wikiLinkExists_resolves_note_variants (entries : List Entry) (e : Entry)
    (d0 : List Char) (he : e ∈ entries) (ht : e.type = "note")
    (hp : e.path.data = d0 ++ ['.', 'm', 'd']) :
    wikiLinkExists (buildNoteLookupMaps entries) e.path = true
  ∧ wikiLinkExists (buildNoteLookupMaps entries) (stripMd e.path) = true
  ∧ (∀ v : String, jsToLower v = jsToLower e.path →
      wikiLinkExists (buildNoteLookupMaps entries) v = true)
  ∧ (∀ v : String, jsToLower v = jsToLower (stripMd e.path) →
      wikiLinkExists (buildNoteLookupMaps entries) v = true)
  ∧ wikiLinkExists (buildNoteLookupMaps entries) (jsToLower (stripMd e.name)) = true := by
  have hpe : e.path = ⟨d0 ++ ['.', 'm', 'd']⟩ := by
    cases hep : e.path with
    | mk d => rw [hep] at hp; exact congrArg String.mk hp
  have hm := mem_buildLoop entries emptyNoteLookup e he ht
  unfold buildNoteLookupMaps
  refine ⟨?_, ?_, ?_, ?_, ?_⟩
  · simp [wikiLinkExists, hm.1]
  · simp [wikiLinkExists, hm.2.1]
  · intro v hv
    simp [wikiLinkExists, hv, hm.2.2.1]
  · intro v hv
    have hcomm : jsToLower (stripMd e.path) = stripMd (jsToLower e.path) := by
      rw [hpe]; exact jsToLower_stripMd_comm d0
    rw [hcomm] at hv
    simp [wikiLinkExists, hv, hm.2.2.2.1]
  · have hidem : jsToLower (jsToLower (stripMd e.name)) = jsToLower (stripMd e.name) :=
      jsToLower_idem _
    simp [wikiLinkExists, hidem, hm.2.2.2.2.2.2.2.1]

/-- Concrete note used to refute the slash-prefixed-stem clause of C1. -/
def c1Note : Entry := ⟨"Note.md", "Note", "", "note", []⟩

/-- C1 counterexample: for the indexed note `Note.md`, the target made of
`/` followed by the lowercase stem of its name (`"/note"`) is rejected by
`wikiLinkExists`, contrary to the claim. -/
theorem wikiLinkExists_slash_stem_counterexample :
    c1Note ∈ [c1Note] ∧ c1Note.type = "note" ∧ c1Note.path = "Note.md"
  ∧ ("/" ++ jsToLower (stripMd c1Note.name)) = "/note"
  ∧ wikiLinkExists (buildNoteLookupMaps [c1Note]) "/note" = false := by
  decide

/-- Witness for the amended C1 theorem at a concrete one-note index. -/
theorem wikiLinkExists_resolves_note_variants_witness :
    (c1Note ∈ [c1Note] ∧ c1Note.type = "note"
      ∧ c1Note.path.data = ['N', 'o', 't', 'e'] ++ ['.', 'm', 'd'])
  ∧ (wikiLinkExists (buildNoteLookupMaps [c1Note]) c1Note.path = true
  ∧ wikiLinkExists (buildNoteLookupMaps [c1Note]) (stripMd c1Note.path) = true
  ∧ (∀ v : String, jsToLower v = jsToLower c1Note.path →
      wikiLinkExists (buildNoteLookupMaps [c1Note]) v = true)
  ∧ (∀ v : String, jsToLower v = jsToLower (stripMd c1Note.path) →
      wikiLinkExists (buildNoteLookupMaps [c1Note]) v = true)
  ∧ wikiLinkExists (buildNoteLookupMaps [c1Note]) (jsToLower (stripMd c1Note.name)) = true) :=
  ⟨⟨by decide, by decide, by decide⟩,
    wikiLinkExists_resolves_note_variants [c1Note] c1Note ['N', 'o', 't', 'e']
      (by decide) (by decide) (by decide)⟩

/-- The media map built by `buildLoop` answers lookups like a first-match
scan of the processed entries: keys already present in the accumulator
win, and otherwise the first non-note entry whose lowercased filename
matches supplies the path. -/
theorem buildLoop_mediaFind (l : List Entry) (acc : NoteLookup) (k : String) :
    ((buildLoop acc l).mediaLookup.find? (fun p => p.1 == k)).map (fun p => p.2)
      = ((acc.mediaLookup.find? (fun p => p.1 == k)).map (fun p => p.2)).or
          ((l.find? (fun e => (e.type != "note")
              && (jsToLower (lastSegment e.path) == k))).map (fun e => e.path)) := by
  induction l generalizing acc with
  | nil =>
    simp [buildLoop]
  | cons e rest ih =>
    simp only [buildLoop]
    rw [ih]
    by_cases ht : (e.type != "note") = true
    · have hml : (processEntry acc e).mediaLookup =
          if (acc.mediaLookup.find? (fun p =>
              p.1 == jsToLower (lastSegment e.path))).isSome
          then acc.mediaLookup
          else acc.mediaLookup ++ [(jsToLower (lastSegment e.path), e.path)] := by
        unfold processEntry
        rw [if_pos ht]
        dsimp only
        split
        · rfl
        · rfl
      by_cases hf : (acc.mediaLookup.find? (fun p =>
          p.1 == jsToLower (lastSegment e.path))).isSome = true
      · rw [hml, if_pos hf]
        by_cases hk : (jsToLower (lastSegment e.path) == k) = true
        · have hkk : jsToLower (lastSegment e.path) = k := eq_of_beq hk
          rw [hkk] at hf
          obtain ⟨pr, hpr⟩ := Option.isSome_iff_exists.mp hf
          simp [List.find?_cons, ht, hk, hpr]
        · simp [List.find?_cons, ht, hk]
      · rw [hml, if_neg hf]
        rw [List.find?_append]
        by_cases hk : (jsToLower (lastSegment e.path) == k) = true
        · have hkk : jsToLower (lastSegment e.path) = k := eq_of_beq hk
          have hA : acc.mediaLookup.find? (fun p => p.1 == k) = none := by
            rw [← hkk]
            exact Option.not_isSome_iff_eq_none.mp (by simpa using hf)
          simp [List.find?_cons, ht, hk, hA]
        · simp [List.find?_cons, ht, hk]
    · have hml : (processEntry acc e).mediaLookup = acc.mediaLookup := by
        unfold processEntry
        rw [if_neg ht]
      rw [hml]
      simp [List.find?_cons, ht]

/-- C6: media resolution is case-insensitive on filename-with-extension
and first-write-wins — `resolveMediaWikilink` returns the path of the
first non-note entry whose lowercased filename equals the lowercased
query, and `none` when no such entry exists. -/
theorem resolveMedia_first_encountered_wins (entries : List Entry) (v : String) :
    resolveMediaWikilink (buildNoteLookupMaps entries) v
      = (entries.find? (fun e => (e.type != "note")
          && (jsToLower (lastSegment e.path) == jsToLower v))).map (fun e => e.path) := by
  unfold resolveMediaWikilink buildNoteLookupMaps
  rw [buildLoop_mediaFind entries emptyNoteLookup (jsToLower v)]
  simp [emptyNoteLookup]

/-! ## Folder tree builder (`buildFolderTree`) -/

/-- A node of the folder tree: `{name, path, children, notes, noteCount}`.
JS objects used as ordered string-keyed dictionaries become association
lists.  Freshly created JS nodes carry no `noteCount` property; the model
initialises it to `0`, and `calculateNoteCounts` overwrites it. -/
inductive FolderNode where
  | node (name : String) (path : String) (children : List (String × FolderNode))
      (notes : List Entry) (noteCount : Nat) : FolderNode
deriving Repr

def FolderNode.name : FolderNode → String
  | .node nm _ _ _ _ => nm

def FolderNode.path : FolderNode → String
  | .node _ p _ _ _ => p

def FolderNode.children : FolderNode → List (String × FolderNode)
  | .node _ _ c _ _ => c

def FolderNode.notes : FolderNode → List Entry
  | .node _ _ _ n _ => n

def FolderNode.noteCount : FolderNode → Nat
  | .node _ _ _ _ k => k

/-- JS property read `m[k]` on an object used as a dictionary. -/
def alGet (m : List (String × FolderNode)) (k : String) : Option FolderNode :=
  (m.find? (fun p => p.1 == k)).map (fun p => p.2)

/-- JS property write `m[k] = v`: replaces in place or appends. -/
def alSet (k : String) (v : FolderNode) : List (String × FolderNode) → List (String × FolderNode)
  | [] => [(k, v)]
  | (k2, v2) :: rest => if k2 == k then (k, v) :: rest else (k2, v2) :: alSet k v rest

/-- The seeding walk of `buildFolderTree` over one explicit folder path:
creates any missing node for each path segment, then descends into its
children. -/
def seedParts (parts : List String) (done : List String)
    (m : List (String × FolderNode)) : List (String × FolderNode) :=
  match parts with
  | [] => m
  | part :: rest =>
    let fullPath := jsJoin '/' (done ++ [part])
    let cur := (alGet m part).getD (.node part fullPath [] [] 0)
    alSet part
      (.node cur.name cur.path (seedParts rest (done ++ [part]) cur.children)
        cur.notes cur.noteCount) m

/-- The note-insertion walk of `buildFolderTree`: descends along the
entry's folder segments, creating missing nodes, and appends the entry to
the `notes` of the final segment's node. -/
def insertNoteAt (nte : Entry) : List String → List String →
    List (String × FolderNode) → List (String × FolderNode)
  | [], _, m => m
  | [last], done, m =>
    let fullPath := jsJoin '/' (done ++ [last])
    let cur := (alGet m last).getD (.node last fullPath [] [] 0)
    alSet last (.node cur.name cur.path cur.children (cur.notes ++ [nte]) cur.noteCount) m
  | part :: rest, done, m =>
    let fullPath := jsJoin '/' (done ++ [part])
    let cur := (alGet m part).getD (.node part fullPath [] [] 0)
    alSet part
      (.node cur.name cur.path (insertNoteAt nte rest (done ++ [part]) cur.children)
        cur.notes cur.noteCount) m

/-- One iteration of the `this.notes.forEach` loop of `buildFolderTree`:
root-level entries go into the distinguished `__root__` bucket, the rest
are inserted along their folder path. -/
def insertNoteEntry (m : List (String × FolderNode)) (nte : Entry) :
    List (String × FolderNode) :=
  if nte.folder == "" then
    let cur := (alGet m "__root__").getD (.node "" "" [] [] 0)
    alSet "__root__" (.node cur.name cur.path cur.children (cur.notes ++ [nte]) cur.noteCount) m
  else insertNoteAt nte (jsSplit '/' nte.folder) [] m

/-- The sort comparator `a.name.toLowerCase().localeCompare(b.name.toLowerCase())`,
modelled as code-point comparison of the lowercased names (the spec
flags the tie-break order as an explicit ambiguity). -/
def entryLeByNameCI (a b : Entry) : Bool :=
  !(compare (jsToLower a.name) (jsToLower b.name) == Ordering.gt)

def insertEntrySorted (x : Entry) : List Entry → List Entry
  | [] => [x]
  | y :: ys => if entryLeByNameCI x y then x :: y :: ys else y :: insertEntrySorted x ys

/-- The `[...obj.notes].sort(...)` step (a stable sort producing a new
array). -/
def sortEntries (l : List Entry) : List Entry := l.foldr insertEntrySorted []

/-- The recursive `sortNotes` helper: sorts each node's `notes` and
recurses into every child (sorting an empty list and recursing into no
children are identities, so the JS emptiness guards are dropped). -/
def sortNotesNode : FolderNode → FolderNode
  | .node nm p children nts cnt =>
    .node nm p (children.attach.map (fun x => (x.1.1, sortNotesNode x.1.2)))
      (sortEntries nts) cnt
termination_by f => sizeOf f
decreasing_by
  have h1 := List.sizeOf_lt_of_mem x.2
  cases x with
  | mk v hv =>
    cases v with
    | mk k c => simp_all; omega

/-- `calculateNoteCounts`: recomputes every node's `noteCount` bottom-up
as direct notes plus the recursive child counts. -/
def calculateNoteCounts : FolderNode → FolderNode
  | .node nm p children nts _ =>
    if children.isEmpty then .node nm p children nts nts.length
    else
      let newChildren := children.attach.map (fun x => (x.1.1, calculateNoteCounts x.1.2))
      .node nm p newChildren nts
        (nts.length + (newChildren.map (fun q => q.2.noteCount)).sum)
termination_by f => sizeOf f
decreasing_by
  have h1 := List.sizeOf_lt_of_mem x.2
  cases x with
  | mk v hv =>
    cases v with
    | mk k c => simp_all; omega

/-- The claim's invariant, checked recursively over a whole subtree:
each node's cached `noteCount` equals its direct note count plus the sum
of its children's cached counts. -/
def countInvariantB : FolderNode → Bool
  | .node _ _ children nts cnt =>
    (cnt == nts.length + (children.map (fun q => q.2.noteCount)).sum)
    && (children.attach.all (fun x => countInvariantB x.1.2))
termination_by f => sizeOf f
decreasing_by
  have h1 := List.sizeOf_lt_of_mem x.2
  cases x with
  | mk v hv =>
    cases v with
    | mk k c => simp_all; omega

/-- `buildFolderTree(entries, allFolders)`: seed explicit folders, insert
every entry, sort the root bucket then every node, and cache the note
counts on every top-level node (the JS guard `folder.path !== undefined`
holds for every node, `__root__` included). -/
def buildFolderTree (entries : List Entry) (allFolders : List String) :
    List (String × FolderNode) :=
  let t1 := allFolders.foldl (fun m fp => seedParts (jsSplit '/' fp) [] m) []
  let t2 := entries.foldl insertNoteEntry t1
  let t3 := match alGet t2 "__root__" with
    | some r => alSet "__root__"
        (.node r.name r.path r.children (sortEntries r.notes) r.noteCount) t2
    | none => t2
  let t4 := t3.map (fun p => (p.1, sortNotesNode p.2))
  t4.map (fun p => (p.1, calculateNoteCounts p.2))

/-- After `calculateNoteCounts`, the whole subtree satisfies the cached
count invariant. -/
theorem countInvariantB_calculate (f : FolderNode) :
    countInvariantB (calculateNoteCounts f) = true := by
  induction f using calculateNoteCounts.induct with
  | case1 nm p children nts cnt hempty =>
    rw [calculateNoteCounts]
    rw [if_pos hempty]
    rw [countInvariantB]
    have : children = [] := List.isEmpty_iff.mp hempty
    subst this
    simp
  | case2 nm p children nts cnt hempty ih =>
    rw [calculateNoteCounts]
    rw [if_neg hempty]
    rw [countInvariantB]
    simp only [Bool.and_eq_true, beq_iff_eq, List.all_eq_true]
    refine ⟨trivial, ?_⟩
    intro x _
    obtain ⟨y, hy, heq⟩ := List.mem_map.mp x.2
    rw [← heq]
    exact ih y

/-- C2: for every tree produced by `buildFolderTree`, every folder node
satisfies `noteCount = |notes| + Σ child noteCounts`, recursively. -/
theorem buildFolderTree_noteCount_invariant (entries : List Entry) (folders : List String) :
    (buildFolderTree entries folders).all (fun p => countInvariantB p.2) = true := by
  unfold buildFolderTree
  rw [List.all_eq_true]
  intro p hp
  obtain ⟨q, hq, rfl⟩ := List.mem_map.mp hp
  exact countInvariantB_calculate q.2

/-! ## History manager (undo/redo) -/

/-- `CONFIG.MAX_UNDO_HISTORY`. -/
def maxUndoHistory : Nat := 50

/-- One history entry `{content, cursorPos}`. -/
structure HistEntry where
  content : String
  cursorPos : Nat
deriving DecidableEq, Repr

/-- Fallback entry used with `List.getLastD` where the code indexes a
stack it has already checked to be non-empty. -/
def dfltEntry : HistEntry := ⟨"", 0⟩

/-- The editor state touched by the history manager.  The top of each JS
array-stack is its last element (`push`/`pop` operate on the tail,
`shift` drops the head). -/
structure EditorState where
  currentNote : Option String
  noteContent : String
  undoHistory : List HistEntry
  redoHistory : List HistEntry
  hasPendingHistoryChanges : Bool
  maxHistorySize : Nat
deriving DecidableEq, Repr

/-- `loadNote`'s history seeding: one entry holding the loaded content,
cursor 0, cleared redo stack and pending flag. -/
def loadNoteState (path content : String) : EditorState :=
  { currentNote := some path
    noteContent := content
    undoHistory := [⟨content, 0⟩]
    redoHistory := []
    hasPendingHistoryChanges := false
    maxHistorySize := maxUndoHistory }

/-- `pushToHistory()`: mark pending changes (called on each keystroke). -/
def pushToHistory (s : EditorState) : EditorState :=
  { s with hasPendingHistoryChanges := true }

/-- `commitToHistory()`: push the current content unless it equals the
top of the undo stack; trim the oldest entry past `maxHistorySize`;
clear the redo stack on a real push; always clear the pending flag.  The
cursor position read from the DOM is the `cursorPos` argument. -/
def commitToHistory (cursorPos : Nat) (s : EditorState) : EditorState :=
  if 0 < s.undoHistory.length
      ∧ (s.undoHistory.getLastD dfltEntry).content = s.noteContent then
    { s with hasPendingHistoryChanges := false }
  else
    let u1 := s.undoHistory ++ [⟨s.noteContent, cursorPos⟩]
    let u2 := if s.maxHistorySize < u1.length then u1.drop 1 else u1
    { s with undoHistory := u2, redoHistory := [], hasPendingHistoryChanges := false }

/-- `flushHistory()`: force a commit if changes are pending. -/
def flushHistory (cursorPos : Nat) (s : EditorState) : EditorState :=
  if s.hasPendingHistoryChanges then commitToHistory cursorPos s else s

/-- `undo()`: no-op without an open note; flush, then if more than the
load-time floor remains, move the top undo entry to the redo stack and
apply the new top's content. -/
def undo (cursorPos : Nat) (s : EditorState) : EditorState :=
  match s.currentNote with
  | none => s
  | some _ =>
    let s1 := flushHistory cursorPos s
    if s1.undoHistory.length ≤ 1 then s1
    else
      let currentState := s1.undoHistory.getLastD dfltEntry
      let u2 := s1.undoHistory.dropLast
      let previousState := u2.getLastD dfltEntry
      { s1 with
        undoHistory := u2
        redoHistory := s1.redoHistory ++ [currentState]
        noteContent := previousState.content }

/-- `redo()`: no-op without an open note or an empty redo stack; flush,
then move the top redo entry back onto the undo stack and apply it. -/
def redo (cursorPos : Nat) (s : EditorState) : EditorState :=
  match s.currentNote with
  | none => s
  | some _ =>
    let s1 := flushHistory cursorPos s
    if s1.redoHistory.length = 0 then s1
    else
      let nextState := s1.redoHistory.getLastD dfltEntry
      { s1 with
        undoHistory := s1.undoHistory ++ [nextState]
        redoHistory := s1.redoHistory.dropLast
        noteContent := nextState.content }

/-- The operations of claim C3: an edit (content change plus
`pushToHistory` via the input handler), a debounce-fired commit, a
flush, an undo and a redo.  Cursor positions read from the DOM are
event payloads. -/
inductive HistOp where
  | recordEdit (newContent : String)
  | commit (cursorPos : Nat)
  | flush (cursorPos : Nat)
  | doUndo (cursorPos : Nat)
  | doRedo (cursorPos : Nat)
deriving DecidableEq, Repr

def applyHistOp (s : EditorState) : HistOp → EditorState
  | .recordEdit c => pushToHistory { s with noteContent := c }
  | .commit cur => commitToHistory cur s
  | .flush cur => flushHistory cur s
  | .doUndo cur => undo cur s
  | .doRedo cur => redo cur s

def applyHistOps (s : EditorState) (ops : List HistOp) : EditorState :=
  ops.foldl applyHistOp s

/-- The inductive invariant carrying claim C3: the undo stack is
non-empty, the two stacks jointly fit the bound, and the bound is the
configured constant. -/
def histInvariant (s : EditorState) : Prop :=
  1 ≤ s.undoHistory.length
  ∧ s.undoHistory.length + s.redoHistory.length ≤ s.maxHistorySize
  ∧ s.maxHistorySize = maxUndoHistory

theorem commitToHistory_invariant (cur : Nat) (s : EditorState)
    (h : histInvariant s) : histInvariant (commitToHistory cur s) := by
  obtain ⟨h1, h2, h3⟩ := h
  unfold commitToHistory
  split
  · exact ⟨h1, h2, h3⟩
  · refine ⟨?_, ?_, h3⟩ <;>
    · dsimp only
      split <;> simp_all <;> omega

theorem flushHistory_invariant (cur : Nat) (s : EditorState)
    (h : histInvariant s) : histInvariant (flushHistory cur s) := by
  unfold flushHistory
  split
  · exact commitToHistory_invariant cur s h
  · exact h

theorem undo_invariant (cur : Nat) (s : EditorState)
    (h : histInvariant s) : histInvariant (undo cur s) := by
  unfold undo
  cases s.currentNote with
  | none => exact h
  | some _ =>
    have h1 := flushHistory_invariant cur s h
    obtain ⟨ha, hb, hc⟩ := h1
    dsimp only
    split
    · exact ⟨ha, hb, hc⟩
    · rename_i hlen
      push_neg at hlen
      refine ⟨?_, ?_, hc⟩ <;> simp [List.length_dropLast] <;> omega

theorem redo_invariant (cur : Nat) (s : EditorState)
    (h : histInvariant s) : histInvariant (redo cur s) := by
  unfold redo
  cases s.currentNote with
  | none => exact h
  | some _ =>
    have h1 := flushHistory_invariant cur s h
    obtain ⟨ha, hb, hc⟩ := h1
    dsimp only
    split
    · exact ⟨ha, hb, hc⟩
    · rename_i hlen
      have hr : 1 ≤ (flushHistory cur s).redoHistory.length := Nat.pos_of_ne_zero hlen
      refine ⟨?_, ?_, hc⟩
      · simp
      · simp only [List.length_append, List.length_dropLast, List.length_singleton]
        omega

theorem applyHistOp_invariant (s : EditorState) (op : HistOp)
    (h : histInvariant s) : histInvariant (applyHistOp s op) := by
  cases op with
  | recordEdit c => exact h
  | commit cur => exact commitToHistory_invariant cur s h
  | flush cur => exact flushHistory_invariant cur s h
  | doUndo cur => exact undo_invariant cur s h
  | doRedo cur => exact redo_invariant cur s h

theorem applyHistOps_invariant (s : EditorState) (ops : List HistOp)
    (h : histInvariant s) : histInvariant (applyHistOps s ops) := by
  induction ops generalizing s with
  | nil => exact h
  | cons op rest ih => exact ih _ (applyHistOp_invariant s op h)

/-- C3: after loading a note and any sequence of edits, commits, flushes,
undos and redos, the undo stack holds at least one entry and never more
than `maxHistorySize` (= 50). -/
theorem undoStack_bounded (path content : String) (ops : List HistOp) :
    1 ≤ (applyHistOps (loadNoteState path content) ops).undoHistory.length
  ∧ (applyHistOps (loadNoteState path content) ops).undoHistory.length
      ≤ (applyHistOps (loadNoteState path content) ops).maxHistorySize
  ∧ (applyHistOps (loadNoteState path content) ops).maxHistorySize = maxUndoHistory := by
  have hinit : histInvariant (loadNoteState path content) := by
    refine ⟨by simp [loadNoteState], ?_, rfl⟩
    simp [loadNoteState, maxUndoHistory]
  have h := applyHistOps_invariant (loadNoteState path content) ops hinit
  exact ⟨h.1, le_trans (Nat.le_add_right _ _) h.2.1, h.2.2⟩

/-- C4: after loading content `C0`, editing to a distinct `C1` and
committing, `undo()` restores `C0` and a following `redo()` restores
`C1` exactly. -/
theorem edit_undo_redo_roundTrip (path c0 c1 : String) (p cu cr : Nat)
    (hne : c1 ≠ c0) :
    (applyHistOps (loadNoteState path c0)
      [.recordEdit c1, .commit p, .doUndo cu]).noteContent = c0
  ∧ (applyHistOps (loadNoteState path c0)
      [.recordEdit c1, .commit p, .doUndo cu, .doRedo cr]).noteContent = c1 := by
  have hne' : ¬ (c0 = c1) := fun h => hne h.symm
  constructor <;>
    simp [applyHistOps, applyHistOp, loadNoteState, pushToHistory, commitToHistory,
      flushHistory, undo, redo, hne', maxUndoHistory, dfltEntry]

/-- Witness for the round-trip theorem at concrete contents. -/
theorem edit_undo_redo_roundTrip_witness :
    (("b" : String) ≠ "a")
  ∧ ((applyHistOps (loadNoteState "n" "a")
      [.recordEdit "b", .commit 0, .doUndo 0]).noteContent = "a"
  ∧ (applyHistOps (loadNoteState "n" "a")
      [.recordEdit "b", .commit 0, .doUndo 0, .doRedo 0]).noteContent = "b") :=
  ⟨by decide, edit_undo_redo_roundTrip "n" "a" "b" 0 0 0 (by decide)⟩

/-- C8: `commitToHistory` pushes only when the current content differs
from the top undo entry, leaves both stacks unchanged otherwise, clears
the redo stack exactly when a real push occurs, and always clears the
pending flag. -/
theorem commitToHistory_push_semantics (s : EditorState) (cur : Nat)
    (hne : s.undoHistory ≠ []) :
    (commitToHistory cur s).hasPendingHistoryChanges = false
  ∧ ((s.undoHistory.getLastD dfltEntry).content = s.noteContent →
      (commitToHistory cur s).undoHistory = s.undoHistory
      ∧ (commitToHistory cur s).redoHistory = s.redoHistory)
  ∧ ((s.undoHistory.getLastD dfltEntry).content ≠ s.noteContent →
      (commitToHistory cur s).undoHistory.getLastD dfltEntry = ⟨s.noteContent, cur⟩
      ∧ (commitToHistory cur s).redoHistory = [])
  ∧ ((commitToHistory cur s).redoHistory = [] ↔
      (s.redoHistory = [] ∨ (s.undoHistory.getLastD dfltEntry).content ≠ s.noteContent)) := by
  have hpos : 0 < s.undoHistory.length := List.length_pos.mpr hne
  by_cases hc : (s.undoHistory.getLastD dfltEntry).content = s.noteContent
  · have heq : commitToHistory cur s = { s with hasPendingHistoryChanges := false } := by
      unfold commitToHistory
      exact if_pos ⟨hpos, hc⟩
    rw [heq]
    exact ⟨rfl, fun _ => ⟨rfl, rfl⟩, fun h => absurd hc h,
      ⟨fun h => Or.inl h, fun h => h.elim (fun x => x) (fun hn => absurd hc hn)⟩⟩
  · have heq : commitToHistory cur s =
        { s with
          undoHistory :=
            if s.maxHistorySize
                < (s.undoHistory ++ [HistEntry.mk s.noteContent cur]).length
            then (s.undoHistory ++ [HistEntry.mk s.noteContent cur]).drop 1
            else s.undoHistory ++ [HistEntry.mk s.noteContent cur]
          redoHistory := []
          hasPendingHistoryChanges := false } := by
      unfold commitToHistory
      rw [if_neg (fun hh => hc hh.2)]
    rw [heq]
    refine ⟨rfl, fun h => absurd h hc, fun _ => ⟨?_, rfl⟩,
      ⟨fun _ => Or.inr hc, fun _ => rfl⟩⟩
    dsimp only
    split
    · rw [List.drop_append_of_le_length (by omega)]
      simp
    · simp

/-- Witness for the commit-semantics theorem at a loaded state. -/
theorem commitToHistory_push_semantics_witness :
    ((loadNoteState "n" "a").undoHistory ≠ [])
  ∧ ((commitToHistory 3 (loadNoteState "n" "a")).hasPendingHistoryChanges = false
  ∧ (((loadNoteState "n" "a").undoHistory.getLastD dfltEntry).content
        = (loadNoteState "n" "a").noteContent →
      (commitToHistory 3 (loadNoteState "n" "a")).undoHistory
          = (loadNoteState "n" "a").undoHistory
      ∧ (commitToHistory 3 (loadNoteState "n" "a")).redoHistory
          = (loadNoteState "n" "a").redoHistory)
  ∧ (((loadNoteState "n" "a").undoHistory.getLastD dfltEntry).content
        ≠ (loadNoteState "n" "a").noteContent →
      (commitToHistory 3 (loadNoteState "n" "a")).undoHistory.getLastD dfltEntry
          = ⟨(loadNoteState "n" "a").noteContent, 3⟩
      ∧ (commitToHistory 3 (loadNoteState "n" "a")).redoHistory = [])
  ∧ ((commitToHistory 3 (loadNoteState "n" "a")).redoHistory = [] ↔
      ((loadNoteState "n" "a").redoHistory = []
        ∨ ((loadNoteState "n" "a").undoHistory.getLastD dfltEntry).content
            ≠ (loadNoteState "n" "a").noteContent))) :=
  ⟨by decide, commitToHistory_push_semantics (loadNoteState "n" "a") 3 (by decide)⟩

/-! ## Filter engine (`applyFilters`, `noteMatchesTags`) -/

/-- `noteMatchesTags(note)`: AND semantics over the selected tags; a
missing `tags` array is the empty list. -/
def noteMatchesTags (selectedTags : List String) (n : Entry) : Bool :=
  if selectedTags.length = 0 then true
  else if n.tags.length = 0 then false
  else selectedTags.all (fun t => n.tags.contains t)

/-- The filter inputs `applyFilters` reads: the entry collection, the
free-text query and the selected tags. -/
structure FilterState where
  notes : List Entry
  searchQuery : String
  selectedTags : List String
deriving DecidableEq, Repr

/-- What `applyFilters` decides to do: show the full folder tree, show a
synchronously computed flat list, or issue an asynchronous text-search
request for the current query. -/
inductive FilterOutcome where
  | fullTree
  | flatList (results : List Entry)
  | textSearch (query : String)
deriving DecidableEq, Repr

/-- The synchronous dispatch of `applyFilters`: no filters rebuilds the
tree, tags without text filters locally to note-kind entries matching
all selected tags, and any text search defers to the backend. -/
def applyFiltersDispatch (st : FilterState) : FilterOutcome :=
  let hasTextSearch := 0 < (jsTrim st.searchQuery).length
  let hasTagFilter := 0 < st.selectedTags.length
  if ¬hasTextSearch ∧ ¬hasTagFilter then .fullTree
  else if hasTagFilter ∧ ¬hasTextSearch then
    .flatList (st.notes.filter
      (fun n => (n.type == "note") && noteMatchesTags st.selectedTags n))
  else .textSearch st.searchQuery

/-- With a non-empty tag selection, `noteMatchesTags` is exactly the
superset test. -/
theorem noteMatchesTags_iff (tags : List String) (n : Entry) (ht : tags ≠ []) :
    noteMatchesTags tags n = true ↔ ∀ t ∈ tags, t ∈ n.tags := by
  unfold noteMatchesTags
  have hlen : ¬ tags.length = 0 := by
    simpa using ht
  rw [if_neg hlen]
  by_cases hnt : n.tags.length = 0
  · rw [if_pos hnt]
    have hempty : n.tags = [] := List.length_eq_zero.mp hnt
    obtain ⟨t0, rest, rfl⟩ := List.exists_cons_of_ne_nil ht
    refine iff_of_false (by simp) ?_
    intro hall
    have hmem := hall t0 (by simp)
    rw [hempty] at hmem
    cases hmem
  · rw [if_neg hnt]
    simp

/-- C9: with tags selected and no search text, the filter produces a
flat list holding exactly the note-kind entries whose tag set includes
every selected tag. -/
theorem applyFilters_tags_only (notes : List Entry) (q : String) (tags : List String)
    (hq : jsTrim q = "") (ht : tags ≠ []) :
    ∃ l, applyFiltersDispatch ⟨notes, q, tags⟩ = .flatList l
      ∧ ∀ n : Entry, n ∈ l ↔ n ∈ notes ∧ n.type = "note" ∧ ∀ t ∈ tags, t ∈ n.tags := by
  have hq0 : ¬ 0 < (jsTrim q).length := by
    rw [hq]
    simp
  have ht0 : 0 < tags.length := List.length_pos.mpr ht
  refine ⟨notes.filter (fun n => (n.type == "note") && noteMatchesTags tags n), ?_, ?_⟩
  · unfold applyFiltersDispatch
    rw [if_neg (by
      dsimp only
      intro hcon
      exact absurd ht0 hcon.2)]
    rw [if_pos ⟨ht0, hq0⟩]
  · intro n
    rw [List.mem_filter]
    constructor
    · rintro ⟨hmem, hpred⟩
      rw [Bool.and_eq_true] at hpred
      exact ⟨hmem, by simpa using hpred.1,
        (noteMatchesTags_iff tags n ht).mp hpred.2⟩
    · rintro ⟨hmem, htype, htags⟩
      refine ⟨hmem, ?_⟩
      rw [Bool.and_eq_true]
      exact ⟨by simpa using htype, (noteMatchesTags_iff tags n ht).mpr htags⟩

/-- Entries for the C9 witness: the spec scenario `{work}` vs
`{work, urgent}` under the filter `{work, urgent}`. -/
def tagNoteA : Entry := ⟨"a.md", "a", "", "note", ["work"]⟩

def tagNoteB : Entry := ⟨"b.md", "b", "", "note", ["work", "urgent"]⟩

/-- Witness for the tags-only filter theorem on the spec's scenario. -/
theorem applyFilters_tags_only_witness :
    (jsTrim "" = "" ∧ (["work", "urgent"] : List String) ≠ [])
  ∧ (∃ l, applyFiltersDispatch ⟨[tagNoteA, tagNoteB], "", ["work", "urgent"]⟩ = .flatList l
      ∧ ∀ n : Entry, n ∈ l ↔ n ∈ [tagNoteA, tagNoteB] ∧ n.type = "note"
          ∧ ∀ t ∈ (["work", "urgent"] : List String), t ∈ n.tags) :=
  ⟨⟨by decide, by decide⟩,
    applyFilters_tags_only [tagNoteA, tagNoteB] "" ["work", "urgent"]
      (by decide) (by decide)⟩

/-! ## Asynchronous text search (`applyFilters` case 3) -/

/-- A `{path, snippet}` result from the external search collaborator. -/
structure SearchResult where
  path : String
  snippet : String
deriving DecidableEq, Repr

/-- The state the text-search path of `applyFilters` reads and writes:
the current query, the selected tags, the displayed results, and the
queries of requests already issued but not yet answered (in issue
order). -/
structure SearchEngineState where
  searchQuery : String
  selectedTags : List String
  searchResults : List SearchResult
  pendingRequests : List String
deriving DecidableEq, Repr

/-- The response continuation of `applyFilters` case 3: the returned
results, filtered by the superset tag rule when tags are selected. -/
def searchResponseApply (notes : List Entry) (selectedTags : List String)
    (results : List SearchResult) : List SearchResult :=
  if 0 < selectedTags.length then
    results.filter (fun r =>
      match notes.find? (fun n => n.path == r.path) with
      | some n => noteMatchesTags selectedTags n
      | none => false)
  else results

/-- Events of the search engine run: the user edits the query, a
debounce firing runs `applyFilters` (which issues a request when text is
present), or the response to the `i`-th in-flight request arrives. -/
inductive SearchEvent where
  | editQuery (q : String)
  | applyFiltersStart
  | respond (i : Nat)
deriving DecidableEq, Repr

/-- One step of the search engine.  On `respond i` the continuation runs
exactly as in the source: `this.searchResults = results` with no check
that `this.searchQuery` still matches the query the request carried. -/
def searchStep (backend : String → List SearchResult) (notes : List Entry)
    (s : SearchEngineState) : SearchEvent → SearchEngineState
  | .editQuery q => { s with searchQuery := q }
  | .applyFiltersStart =>
      if 0 < (jsTrim s.searchQuery).length then
        { s with pendingRequests := s.pendingRequests ++ [s.searchQuery] }
      else s
  | .respond i =>
      if i < s.pendingRequests.length then
        { s with
          pendingRequests := s.pendingRequests.eraseIdx i
          searchResults :=
            searchResponseApply notes s.selectedTags
              (backend (s.pendingRequests.getD i "")) }
      else s

def searchRun (backend : String → List SearchResult) (notes : List Entry)
    (s : SearchEngineState) (evs : List SearchEvent) : SearchEngineState :=
  evs.foldl (searchStep backend notes) s

/-- Claim C5 as stated: a response whose request query no longer matches
the current query is discarded on arrival, leaving `searchResults`
untouched. -/
def staleResponsesDiscarded (backend : String → List SearchResult)
    (notes : List Entry) : Prop :=
  ∀ (s : SearchEngineState) (i : Nat), i < s.pendingRequests.length →
    s.pendingRequests.getD i "" ≠ s.searchQuery →
    (searchStep backend notes s (.respond i)).searchResults = s.searchResults

/-- Backend used in the C5 counterexample: each query returns one result
naming the query. -/
def cxBackend : String → List SearchResult := fun q => [⟨q, "snippet"⟩]

/-- C5 counterexample: run `[edit "alpha", applyFilters, edit "beta",
applyFilters, respond 1]`, so the fresher `beta` response has been
applied and the stale `alpha` request is still in flight; its arrival
overwrites `searchResults` instead of being discarded. -/
theorem staleResponse_not_discarded :
    ¬ staleResponsesDiscarded cxBackend [] := by
  intro h
  have hs := h (searchRun cxBackend [] ⟨"", [], [], []⟩
      [.editQuery "alpha", .applyFiltersStart, .editQuery "beta",
        .applyFiltersStart, .respond 1])
    0 (by decide) (by decide)
  exact absurd hs (by decide)

/-- C5 (amended): a response is applied unconditionally on arrival —
the new `searchResults` are the (tag-filtered) backend results for the
request's own query, independent of the current query; the last response
to arrive wins. -/
theorem respond_overwrites_results (backend : String → List SearchResult)
    (notes : List Entry) (s : SearchEngineState) (i : Nat)
    (h : i < s.pendingRequests.length) :
    (searchStep backend notes s (.respond i)).searchResults
      = searchResponseApply notes s.selectedTags (backend (s.pendingRequests.getD i ""))
  ∧ ∀ q2 : String,
      (searchStep backend notes { s with searchQuery := q2 } (.respond i)).searchResults
        = (searchStep backend notes s (.respond i)).searchResults := by
  constructor
  · simp only [searchStep]
    rw [if_pos h]
  · intro q2
    simp only [searchStep]
    rw [if_pos (by simpa using h), if_pos h]

/-- Witness for the amended C5 theorem at a concrete in-flight state. -/
theorem respond_overwrites_results_witness :
    (0 < ([("alpha" : String)] : List String).length)
  ∧ ((searchStep cxBackend [] ⟨"beta", [], [], ["alpha"]⟩ (.respond 0)).searchResults
      = searchResponseApply [] [] (cxBackend (["alpha"].getD 0 ""))
  ∧ ∀ q2 : String,
      (searchStep cxBackend []
          { SearchEngineState.mk "beta" [] [] ["alpha"] with searchQuery := q2 }
          (.respond 0)).searchResults
        = (searchStep cxBackend [] ⟨"beta", [], [], ["alpha"]⟩ (.respond 0)).searchResults) :=
  ⟨by decide, respond_overwrites_results cxBackend [] ⟨"beta", [], [], ["alpha"]⟩ 0 (by decide)⟩

/-! ## Content renderer (`renderedMarkdown`) -/

/-- The external collaborators of the render pipeline: the configured
`marked.parse`, the DOM post-processing of links/images, and the URI
component codec (`decodeURIComponent` may throw, hence `Option`). -/
structure JsExternals where
  markedParse : String → String
  domPostprocess : String → String
  encodeURIComp : String → String
  decodeURIComp : String → Option String

/-- A global single-character `String.replace`: every occurrence of `c`
becomes `r`. -/
def replaceCharStr (c : Char) (r : String) (s : String) : String :=
  ⟨s.data.foldr (fun x acc => (if x == c then r.data else [x]) ++ acc) []⟩

/-- `.replace(/&/g,'&amp;').replace(/</g,'&lt;').replace(/>/g,'&gt;')`
(the ampersand pass runs first, as in the source). -/
def escapeHtmlText (s : String) : String :=
  replaceCharStr '>' "&gt;" (replaceCharStr '<' "&lt;" (replaceCharStr '&' "&amp;" s))

/-- The backtick character (code point 96). -/
def btick : Char := Char.ofNat 96

/-- The opaque placeholder `\x00CODEBLOCK<n>\x00`. -/
def codePlaceholder (n : Nat) : String := "\x00CODEBLOCK" ++ toString n ++ "\x00"

/-- Split a character list around its earliest fenced-fence (```)
occurrence, mirroring the lazy `[\s\S]*?` match. -/
def splitAtTriple : List Char → Option (List Char × List Char)
  | c1 :: c2 :: c3 :: rest =>
    if c1 == btick && c2 == btick && c3 == btick then some ([], rest)
    else
      match splitAtTriple (c2 :: c3 :: rest) with
      | some (a, b) => some (c1 :: a, b)
      | none => none
  | _ => none

/-- First half of stage 1: replace every fenced code block
(lazy ```...``` match) by a placeholder, recording the original.  The
fuel argument (instantiated with the text length, which one character is
consumed per step never exhausts) keeps the scan structural. -/
def protectFenced (fuel : Nat) (cs : List Char) (blocks : List String) :
    List Char × List String :=
  match fuel, cs with
  | 0, _ => (cs, blocks)
  | _, [] => ([], blocks)
  | f + 1, c1 :: c2 :: c3 :: rest =>
    if c1 == btick && c2 == btick && c3 == btick then
      match splitAtTriple rest with
      | some (mid, after) =>
        let block : String := ⟨[btick, btick, btick] ++ mid ++ [btick, btick, btick]⟩
        let out := protectFenced f after (blocks ++ [block])
        ((codePlaceholder blocks.length).data ++ out.1, out.2)
      | none => (cs, blocks)
    else
      let out := protectFenced f (c2 :: c3 :: rest) blocks
      (c1 :: out.1, out.2)
  | _ + 1, c :: rest => (c :: rest, blocks)

/-- Second half of stage 1: replace every inline-code span
(`[^\x60]+` between backticks) by a placeholder. -/
def protectInline (fuel : Nat) (cs : List Char) (blocks : List String) :
    List Char × List String :=
  match fuel, cs with
  | 0, _ => (cs, blocks)
  | _, [] => ([], blocks)
  | f + 1, c :: rest =>
    if c == btick then
      let mid := rest.takeWhile (fun x => x != btick)
      match rest.dropWhile (fun x => x != btick) with
      | c2 :: rest2 =>
        if mid.isEmpty then
          let out := protectInline f rest blocks
          (c :: out.1, out.2)
        else
          let block : String := ⟨c :: (mid ++ [c2])⟩
          let out := protectInline f rest2 (blocks ++ [block])
          ((codePlaceholder blocks.length).data ++ out.1, out.2)
      | [] => (c :: rest, blocks)
    else
      let out := protectInline f rest blocks
      (c :: out.1, out.2)

/-- Stage 1 of the pipeline: protect fenced blocks, then inline code,
sharing one block store. -/
def protectCodeBlocks (s : String) : String × List String :=
  let fenced := protectFenced s.data.length s.data []
  let inl := protectInline fenced.1.length fenced.1 fenced.2
  (⟨inl.1⟩, inl.2)

def digitsToNat (ds : List Char) : Nat :=
  ds.foldl (fun a c => 10 * a + (c.toNat - 48)) 0

/-- Stage 4: restore the recorded blocks for every
`\x00CODEBLOCK<digits>\x00` placeholder (an out-of-range index would
interpolate JS `undefined`). -/
def restoreCodeBlocks (blocks : List String) (fuel : Nat) (cs : List Char) : List Char :=
  match fuel, cs with
  | 0, _ => cs
  | _, [] => []
  | f + 1, c :: rest =>
    if c == '\x00' && rest.take 9 == "CODEBLOCK".data then
      let r2 := rest.drop 9
      let digits := r2.takeWhile Char.isDigit
      match digits, r2.dropWhile Char.isDigit with
      | _ :: _, d :: r3 =>
        if d == '\x00' then
          (blocks.getD (digitsToNat digits) "undefined").data
            ++ restoreCodeBlocks blocks f r3
        else c :: restoreCodeBlocks blocks f rest
      | _, _ => c :: restoreCodeBlocks blocks f rest
    else c :: restoreCodeBlocks blocks f rest

/-- `getMediaType(filename)`: classify by the lowercased final
dot-separated extension, scanning image, audio, video, document. -/
def getMediaType (filename : String) : Option String :=
  if filename == "" then none
  else
    let ext := jsToLower ((jsSplit '.' filename).getLastD "")
    if ["jpg", "jpeg", "png", "gif", "webp"].contains ext then some "image"
    else if ["mp3", "wav", "ogg", "m4a"].contains ext then some "audio"
    else if ["mp4", "webm", "mov", "avi"].contains ext then some "video"
    else if ["pdf"].contains ext then some "document"
    else none

/-- `filename.replace(/\.[^/.]+$/, '')`: drop a final dot-extension
containing no slash and no further dot. -/
def stripExtension (s : String) : String :=
  let rev := s.data.reverse
  let seg := rev.takeWhile (fun c => !(c == '.' || c == '/'))
  match rev.drop seg.length with
  | c :: _ =>
    if c == '.' && !seg.isEmpty then ⟨(rev.drop (seg.length + 1)).reverse⟩ else s
  | [] => s

/-- `path.split('/').map(s => encodeURIComponent(decodeURIComponent(s))).join('/')`,
the catch on a malformed segment falling back to encoding it raw. -/
def encodePathSegments (ext : JsExternals) (p : String) : String :=
  jsJoin '/' ((jsSplit '/' p).map (fun seg =>
    match ext.decodeURIComp seg with
    | some d => ext.encodeURIComp d
    | none => ext.encodeURIComp seg))

/-- The `![[...]]` replacement callback (stage 2): resolved media emit a
kind-appropriate embed addressed through `/api/media/`; misses emit a
visibly broken placeholder keeping the filename. -/
def mediaEmbedReplace (ext : JsExternals) (idx : NoteLookup)
    (mediaName : String) (altText : Option String) : String :=
  let filename := jsTrim mediaName
  let alt := match altText with
    | some a => jsTrim a
    | none => stripExtension filename
  match resolveMediaWikilink idx filename with
  | some mediaPath =>
    let encodedPath := encodePathSegments ext mediaPath
    let safeAlt := replaceCharStr '"' "&quot;" alt
    let mediaSrc := "/api/media/" ++ encodedPath
    match getMediaType filename with
    | some "audio" =>
        "<div class=\"media-embed media-audio\"><audio controls preload=\"none\" src=\""
          ++ mediaSrc ++ "\" title=\"" ++ safeAlt
          ++ "\"></audio><span class=\"media-caption\">" ++ safeAlt ++ "</span></div>"
    | some "video" =>
        "<div class=\"media-embed media-video\"><video controls preload=\"none\" poster=\"\" src=\""
          ++ mediaSrc ++ "\" title=\"" ++ safeAlt ++ "\"></video></div>"
    | some "document" =>
        "<div class=\"media-embed media-pdf\"><iframe src=\"" ++ mediaSrc
          ++ "\" title=\"" ++ safeAlt ++ "\"></iframe></div>"
    | _ =>
        "<img src=\"" ++ mediaSrc ++ "\" alt=\"" ++ safeAlt ++ "\" title=\""
          ++ safeAlt ++ "\">"
  | none =>
    let safeFilename := escapeHtmlText filename
    let icon := match getMediaType filename with
      | some "audio" => "🎵"
      | some "video" => "🎬"
      | some "document" => "📄"
      | _ => "🖼️"
    "<span class=\"wikilink-broken\" title=\"Media not found\">" ++ icon ++ " "
      ++ safeFilename ++ "</span>"

/-- The `[[...]]` replacement callback (stage 3): a trailing `#section`
anchor is stripped for the existence check but kept in the emitted
address; an empty base (pure anchor link) counts as existing; broken
targets stay clickable with the broken class. -/
def noteWikilinkReplace (idx : NoteLookup) (target : String)
    (displayText : Option String) : String :=
  let linkTarget := jsTrim target
  let linkText := match displayText with
    | some d => jsTrim d
    | none => linkTarget
  let basePath := match linkTarget.data.findIdx? (fun c => c == '#') with
    | some i => (⟨linkTarget.data.take i⟩ : String)
    | none => linkTarget
  let noteExists := basePath == "" || wikiLinkExists idx basePath
  let safeHref := replaceCharStr '"' "%22" linkTarget
  let safeText := escapeHtmlText linkText
  let brokenClass := if noteExists then "" else " class=\"wikilink-broken\""
  "<a href=\"" ++ safeHref ++ "\"" ++ brokenClass ++ " data-wikilink=\"true\">"
    ++ safeText ++ "</a>"

/-- Parse a `[[...]]` body after the opening brackets: group 1 matches
`[^\]|]+`, an optional `|`-separated display matches `[^\]]+`, closed by
`]]`. -/
def parseWikiBody (cs : List Char) : Option (String × Option String × List Char) :=
  let g1 := cs.takeWhile (fun c => !(c == ']' || c == '|'))
  if g1.isEmpty then none
  else
    match cs.drop g1.length with
    | ']' :: ']' :: rest => some (⟨g1⟩, none, rest)
    | '|' :: r2 =>
      let g2 := r2.takeWhile (fun c => !(c == ']'))
      if g2.isEmpty then none
      else
        match r2.drop g2.length with
        | ']' :: ']' :: rest => some (⟨g1⟩, some ⟨g2⟩, rest)
        | _ => none
    | _ => none

/-- Stage 2: global replacement of `![[...]]` media embeds (runs before
note links so media names are not captured as plain wikilinks). -/
def replaceMediaEmbeds (ext : JsExternals) (idx : NoteLookup) (fuel : Nat)
    (cs : List Char) : List Char :=
  match fuel, cs with
  | 0, _ => cs
  | _, [] => []
  | f + 1, '!' :: '[' :: '[' :: rest =>
    match parseWikiBody rest with
    | some (g1, g2, after) =>
      (mediaEmbedReplace ext idx g1 g2).data ++ replaceMediaEmbeds ext idx f after
    | none => '!' :: replaceMediaEmbeds ext idx f ('[' :: '[' :: rest)
  | f + 1, c :: rest => c :: replaceMediaEmbeds ext idx f rest

/-- Stage 3: global replacement of `[[...]]` note wikilinks. -/
def replaceNoteWikilinks (idx : NoteLookup) (fuel : Nat) (cs : List Char) : List Char :=
  match fuel, cs with
  | 0, _ => cs
  | _, [] => []
  | f + 1, '[' :: '[' :: rest =>
    match parseWikiBody rest with
    | some (g1, g2, after) =>
      (noteWikilinkReplace idx g1 g2).data ++ replaceNoteWikilinks idx f after
    | none => '[' :: replaceNoteWikilinks idx f ('[' :: rest)
  | f + 1, c :: rest => c :: replaceNoteWikilinks idx f rest

/-- The YAML-frontmatter strip at the head of `renderedMarkdown`:
with a leading `---` line and a closing `---` line, everything through
the closer goes, and the remainder is trimmed; otherwise the content is
untouched. -/
def stripFrontmatter (content : String) : String :=
  if (jsTrim content).data.take 3 == ['-', '-', '-'] then
    match jsSplit '\n' content with
    | [] => content
    | l0 :: rest =>
      if jsTrim l0 == "---" then
        match rest.findIdx? (fun l => jsTrim l == "---") with
        | some j => jsTrim (jsJoin '\n' (rest.drop (j + 1)))
        | none => content
      else content
  else content

/-- The first-party synchronous stages of the render pipeline, in source
order: frontmatter strip, code protection, media-embed expansion,
note-wikilink expansion, code restoration. -/
def renderPipelineCore (ext : JsExternals) (idx : NoteLookup) (content : String) : String :=
  let c1 := stripFrontmatter content
  let prot := protectCodeBlocks c1
  let c3 := replaceMediaEmbeds ext idx prot.1.data.length prot.1.data
  let c4 := replaceNoteWikilinks idx c3.length c3
  ⟨restoreCodeBlocks prot.2 c4.length c4⟩

/-- The full render of a text: first-party stages, then the external
`marked` conversion and DOM post-processing. -/
def fullRender (ext : JsExternals) (idx : NoteLookup) (content : String) : String :=
  ext.domPostprocess (ext.markedParse (renderPipelineCore ext idx content))

/-- The renderer's single-slot cache (`_lastRenderedContent`,
`_cachedRenderedHTML`). -/
structure RenderCache where
  lastContent : String
  cachedHTML : String
deriving DecidableEq, Repr

/-- Result of one `renderedMarkdown` evaluation; `ranPipeline` is ghost
instrumentation recording whether the pipeline body executed. -/
structure RenderResult where
  html : String
  cache : RenderCache
  ranPipeline : Bool
deriving DecidableEq, Repr

/-- The `renderedMarkdown` getter: empty content short-circuits to the
placeholder paragraph; a cache hit needs equal content and a truthy
cached string; otherwise the pipeline runs and refills the cache. -/
def renderedMarkdown (ext : JsExternals) (idx : NoteLookup)
    (noteContent : String) (cache : RenderCache) : RenderResult :=
  if noteContent == "" then
    ⟨"<p style=\"color: var(--text-tertiary);\">Nothing to preview yet...</p>",
      cache, false⟩
  else if noteContent == cache.lastContent && cache.cachedHTML != "" then
    ⟨cache.cachedHTML, cache, false⟩
  else
    let html := fullRender ext idx noteContent
    ⟨html, ⟨noteContent, html⟩, true⟩

/-- Cache consistency: a truthy cached string is the full render of the
cached content. -/
def cacheConsistent (ext : JsExternals) (idx : NoteLookup) (c : RenderCache) : Prop :=
  c.cachedHTML ≠ "" → c.cachedHTML = fullRender ext idx c.lastContent

/-- Identity-flavoured externals for the render counterexample and
witnesses: `marked.parse` and the DOM post-processing pass text through
(in particular the empty string renders to the empty string, as real
`marked.parse('')` does). -/
def idExternals : JsExternals := ⟨fun s => s, fun s => s, fun s => s, fun s => some s⟩

/-- The frontmatter-only note of the C7 counterexample: stripping the
frontmatter leaves nothing, so its full render is the empty string. -/
def fmOnlyNote : String := "---\na: 1\n---"

/-- C7 counterexample: for the frontmatter-only note, the first render
produces the empty string, which the truthiness guard of the cache
(`this._cachedRenderedHTML`) treats as a miss, so the second render of
the unchanged text re-runs the pipeline — contrary to the claim that
the second call returns the single-slot cache's value without
re-running it.  (The output is still identical.) -/
theorem renderedMarkdown_empty_render_counterexample :
    fmOnlyNote ≠ ""
  ∧ fullRender idExternals (buildNoteLookupMaps []) fmOnlyNote = ""
  ∧ (renderedMarkdown idExternals (buildNoteLookupMaps []) fmOnlyNote
      ⟨"", ""⟩).ranPipeline = true
  ∧ (renderedMarkdown idExternals (buildNoteLookupMaps []) fmOnlyNote
      (renderedMarkdown idExternals (buildNoteLookupMaps []) fmOnlyNote
        ⟨"", ""⟩).cache).ranPipeline = true
  ∧ (renderedMarkdown idExternals (buildNoteLookupMaps []) fmOnlyNote
      (renderedMarkdown idExternals (buildNoteLookupMaps []) fmOnlyNote
        ⟨"", ""⟩).cache).html
      = (renderedMarkdown idExternals (buildNoteLookupMaps []) fmOnlyNote
          ⟨"", ""⟩).html := by
  decide

/-- C7 (amended): for a fixed index the first render of non-empty text
is the pure function `fullRender` of the text whatever the cache held,
the refreshed cache stays consistent, and an immediate second render of
the same text returns the identical output and leaves the cache
identical — served from the single-slot cache without re-running the
pipeline exactly when the text is empty (short-circuited before the
pipeline) or the first call's output is non-empty (the truthiness guard
on the cached string). -/
theorem renderedMarkdown_rerender_characterization (ext : JsExternals)
    (idx : NoteLookup) (content : String) (cache : RenderCache)
    (hwf : cacheConsistent ext idx cache) :
    (content ≠ "" →
      (renderedMarkdown ext idx content cache).html = fullRender ext idx content)
  ∧ cacheConsistent ext idx (renderedMarkdown ext idx content cache).cache
  ∧ (renderedMarkdown ext idx content
        (renderedMarkdown ext idx content cache).cache).html
      = (renderedMarkdown ext idx content cache).html
  ∧ (renderedMarkdown ext idx content
        (renderedMarkdown ext idx content cache).cache).cache
      = (renderedMarkdown ext idx content cache).cache
  ∧ ((renderedMarkdown ext idx content
        (renderedMarkdown ext idx content cache).cache).ranPipeline = false
      ↔ (content = "" ∨ (renderedMarkdown ext idx content cache).html ≠ "")) := by
  by_cases hc : content = ""
  · subst hc
    have heq : renderedMarkdown ext idx "" cache
        = ⟨"<p style=\"color: var(--text-tertiary);\">Nothing to preview yet...</p>",
            cache, false⟩ := by
      unfold renderedMarkdown
      rw [if_pos (by decide)]
    rw [heq]
    exact ⟨fun h => absurd rfl h, hwf, by rw [heq], by rw [heq],
      ⟨fun _ => Or.inl rfl, fun _ => by rw [heq]⟩⟩
  · have hne0 : (content == "") = false := by
      simpa using hc
    by_cases hhit : (content == cache.lastContent && cache.cachedHTML != "") = true
    · have heq : renderedMarkdown ext idx content cache
          = ⟨cache.cachedHTML, cache, false⟩ := by
        unfold renderedMarkdown
        rw [hne0]
        simp only [Bool.false_eq_true, if_false]
        rw [if_pos hhit]
      rw [Bool.and_eq_true] at hhit
      have hlast : content = cache.lastContent := by
        simpa using hhit.1
      have hch : cache.cachedHTML ≠ "" := by
        simpa using hhit.2
      have hrender : cache.cachedHTML = fullRender ext idx content := by
        rw [hlast]
        exact hwf hch
      rw [heq]
      exact ⟨fun _ => hrender, hwf, by rw [heq], by rw [heq],
        ⟨fun _ => Or.inr hch, fun _ => by rw [heq]⟩⟩
    · have heq : renderedMarkdown ext idx content cache
          = ⟨fullRender ext idx content,
              ⟨content, fullRender ext idx content⟩, true⟩ := by
        unfold renderedMarkdown
        rw [hne0]
        simp only [Bool.false_eq_true, if_false]
        rw [if_neg hhit]
      rw [heq]
      by_cases hh : fullRender ext idx content = ""
      · have heq2 : renderedMarkdown ext idx content
            ⟨content, fullRender ext idx content⟩
            = ⟨fullRender ext idx content,
                ⟨content, fullRender ext idx content⟩, true⟩ := by
          unfold renderedMarkdown
          rw [hne0]
          simp only [Bool.false_eq_true, if_false]
          rw [if_neg (by
            rw [Bool.and_eq_true]
            rintro ⟨-, hbad⟩
            rw [hh] at hbad
            simp at hbad)]
        refine ⟨fun _ => rfl, fun _ => rfl, by rw [heq2], by rw [heq2], ?_⟩
        rw [heq2]
        refine ⟨fun hfalse => absurd hfalse (by simp), ?_⟩
        rintro (hcon | hcon)
        · exact absurd hcon hc
        · exact absurd hh hcon
      · have heq2 : renderedMarkdown ext idx content
            ⟨content, fullRender ext idx content⟩
            = ⟨fullRender ext idx content,
                ⟨content, fullRender ext idx content⟩, false⟩ := by
          unfold renderedMarkdown
          rw [hne0]
          simp only [Bool.false_eq_true, if_false]
          rw [if_pos (by
            rw [Bool.and_eq_true]
            exact ⟨by simp, by simpa using hh⟩)]
        exact ⟨fun _ => rfl, fun _ => rfl, by rw [heq2], by rw [heq2],
          ⟨fun _ => Or.inr hh, fun _ => by rw [heq2]⟩⟩

/-- Witness for the amended render theorem on an empty cache and
concrete text. -/
theorem renderedMarkdown_rerender_characterization_witness :
    cacheConsistent idExternals (buildNoteLookupMaps []) ⟨"", ""⟩
  ∧ ((("hello" : String) ≠ "" →
      (renderedMarkdown idExternals (buildNoteLookupMaps []) "hello" ⟨"", ""⟩).html
        = fullRender idExternals (buildNoteLookupMaps []) "hello")
  ∧ cacheConsistent idExternals (buildNoteLookupMaps [])
      (renderedMarkdown idExternals (buildNoteLookupMaps []) "hello" ⟨"", ""⟩).cache
  ∧ (renderedMarkdown idExternals (buildNoteLookupMaps []) "hello"
        (renderedMarkdown idExternals (buildNoteLookupMaps []) "hello" ⟨"", ""⟩).cache).html
      = (renderedMarkdown idExternals (buildNoteLookupMaps []) "hello" ⟨"", ""⟩).html
  ∧ (renderedMarkdown idExternals (buildNoteLookupMaps []) "hello"
        (renderedMarkdown idExternals (buildNoteLookupMaps []) "hello" ⟨"", ""⟩).cache).cache
      = (renderedMarkdown idExternals (buildNoteLookupMaps []) "hello" ⟨"", ""⟩).cache
  ∧ ((renderedMarkdown idExternals (buildNoteLookupMaps []) "hello"
        (renderedMarkdown idExternals (buildNoteLookupMaps []) "hello"
          ⟨"", ""⟩).cache).ranPipeline = false
      ↔ (("hello" : String) = ""
        ∨ (renderedMarkdown idExternals (buildNoteLookupMaps []) "hello"
            ⟨"", ""⟩).html ≠ ""))) :=
  ⟨fun hcon => absurd rfl hcon,
    renderedMarkdown_rerender_characterization idExternals (buildNoteLookupMaps [])
      "hello" ⟨"", ""⟩ (fun hcon => absurd rfl hcon)⟩

/-- C10: a note wikilink whose trimmed target begins with `#` (a pure
section anchor) is always emitted as a resolved link — the broken-link
class is never applied, whatever the index holds — and the emitted
address preserves the full anchor-bearing target (quote-escaped). -/
theorem anchor_wikilink_always_resolved (idx : NoteLookup) (target : String)
    (displayText : Option String)
    (h : (jsTrim target).data.head? = some '#') :
    noteWikilinkReplace idx target displayText
      = "<a href=\"" ++ replaceCharStr '"' "%22" (jsTrim target) ++ "\""
        ++ " data-wikilink=\"true\">"
        ++ escapeHtmlText (match displayText with
            | some d => jsTrim d
            | none => jsTrim target) ++ "</a>"
  ∧ (∀ idx2 : NoteLookup, noteWikilinkReplace idx target displayText
      = noteWikilinkReplace idx2 target displayText) := by
  have hdata : ∃ tl, (jsTrim target).data = '#' :: tl := by
    cases hd : (jsTrim target).data with
    | nil => rw [hd] at h; cases h
    | cons c tl =>
      rw [hd] at h
      simp only [List.head?_cons, Option.some_inj] at h
      exact ⟨tl, by rw [h]⟩
  obtain ⟨tl, htl⟩ := hdata
  have hidx : (jsTrim target).data.findIdx? (fun c => c == '#') = some 0 := by
    rw [htl]
    simp [List.findIdx?_cons]
  have hbase : (match (jsTrim target).data.findIdx? (fun c => c == '#') with
      | some i => ((⟨(jsTrim target).data.take i⟩ : String))
      | none => jsTrim target) = "" := by
    rw [hidx]
    rfl
  have hkey : ∀ idx3 : NoteLookup, noteWikilinkReplace idx3 target displayText
      = "<a href=\"" ++ replaceCharStr '"' "%22" (jsTrim target) ++ "\""
        ++ " data-wikilink=\"true\">"
        ++ escapeHtmlText (match displayText with
            | some d => jsTrim d
            | none => jsTrim target) ++ "</a>" := by
    intro idx3
    unfold noteWikilinkReplace
    dsimp only
    rw [hbase]
    have hexists : (("" : String) == "" || wikiLinkExists idx3 "") = true := by
      rw [Bool.or_eq_true]
      exact Or.inl (by decide)
    rw [hexists]
    simp only [if_true]
    cases displayText <;> simp [String.append_assoc]
  exact ⟨hkey idx, fun idx2 => (hkey idx).trans (hkey idx2).symm⟩

/-- Witness for the anchor-wikilink theorem at `[[#sec]]` over the empty
index. -/
theorem anchor_wikilink_always_resolved_witness :
    ((jsTrim "#sec").data.head? = some '#')
  ∧ (noteWikilinkReplace (buildNoteLookupMaps []) "#sec" none
      = "<a href=\"" ++ replaceCharStr '"' "%22" (jsTrim "#sec") ++ "\""
        ++ " data-wikilink=\"true\">"
        ++ escapeHtmlText (match (none : Option String) with
            | some d => jsTrim d
            | none => jsTrim "#sec") ++ "</a>"
  ∧ (∀ idx2 : NoteLookup, noteWikilinkReplace (buildNoteLookupMaps []) "#sec" none
      = noteWikilinkReplace idx2 "#sec" none)) :=
  ⟨by decide,
    anchor_wikilink_always_resolved (buildNoteLookupMaps []) "#sec" none (by decide)⟩

end NoteDiscovery
